import Mathlib

/-!
Shallow embedding of the Sudoku core of `sudoku-web/src/App.tsx`:
the conflict checker `checkErrors`, the completion test `isCleared`,
the Fisher-Yates `shuffle`, the safety test `isSafe`, the backtracking
filler `fillBoard`, and the generator `generateSudokuPuzzle`.

A grid (`BoardState` in the source) is a list of 9 rows, each a list of
9 optional numbers; `none` models JavaScript `null`.  The source's
`Math.random()` draws are modelled by an explicit stream `g : ℕ → ℕ`
together with a cursor `k`: the j-th draw of the run is `g (k + j)`,
reduced modulo the requested bound (mirroring
`Math.floor(Math.random() * n)`, which yields a value in `[0, n)`).
The recursive `fillBoard` is given explicit fuel; 82 units are enough
because every recursive call fills one of the at most 81 empty cells.
-/

namespace Sudoku

/-- A 9x9 grid: list of rows, each row a list of optional cell values.
Mirrors `BoardState = (number | null)[][]` from the source. -/
abbrev Board := List (List (Option ℕ))

/-- Read a cell, `board[r][c]` in the source; out-of-range reads give `none`. -/
def cellAt (b : Board) (r c : ℕ) : Option ℕ := (b.getD r []).getD c none

/-- Write a cell, `board[r][c] = v` in the source. -/
def setCell (b : Board) (r c : ℕ) (v : Option ℕ) : Board :=
  b.set r ((b.getD r []).set c v)

/-- The grid really is 9x9 (always true for grids built by the source). -/
def WF (b : Board) : Prop := b.length = 9 ∧ ∀ row ∈ b, row.length = 9

/-- `emptyBoard`: the all-`null` 9x9 grid. -/
def emptyBoard : Board := List.replicate 9 (List.replicate 9 none)

/-- `cloneBoard`: `b.map(row => [...row])`. -/
def cloneBoard (b : Board) : Board := b.map (fun row => row.map (fun x => x))

/-- JavaScript falsiness of a cell value (`!v`): `null` and `0` are falsy. -/
def cellFalsy (v : Option ℕ) : Bool :=
  match v with
  | none => true
  | some n => n == 0

/-- Read a flag of a 9x9 boolean map, `errors[r][c]`. -/
def errGet (e : List (List Bool)) (r c : ℕ) : Bool := (e.getD r []).getD c false

/-- The conflict flag `checkErrors` computes for one cell: the cell's value is
truthy and the same value occurs at another index of its row, another index of
its column, or another cell of its 3x3 block. -/
def errAt (b : Board) (r c : ℕ) : Bool :=
  let v := cellAt b r c
  if cellFalsy v then false
  else
    ((List.range 9).any fun i =>
      (decide (i ≠ c) && (cellAt b r i == v)) || (decide (i ≠ r) && (cellAt b i c == v))) ||
    ((List.range 3).any fun dr => (List.range 3).any fun dc =>
      let rr := r / 3 * 3 + dr
      let cc := c / 3 * 3 + dc
      decide (rr ≠ r ∨ cc ≠ c) && (cellAt b rr cc == v))

/-- `checkErrors(board)`: the 9x9 conflict map. -/
def checkErrors (b : Board) : List (List Bool) :=
  (List.range 9).map fun r => (List.range 9).map fun c => errAt b r c

/-- `isCleared(board, errors)`: every cell truthy and no error flag set. -/
def isCleared (b : Board) (errors : List (List Bool)) : Bool :=
  (List.range 9).all fun r => (List.range 9).all fun c =>
    !(cellFalsy (cellAt b r c)) && !(errGet errors r c)

/-- One Fisher-Yates swap: `[arr[i], arr[j]] = [arr[j], arr[i]]`. -/
def listSwap {α : Type} (l : List α) (i j : ℕ) : List α :=
  match l[i]?, l[j]? with
  | some a, some v => (l.set i v).set j a
  | _, _ => l

/-- The Fisher-Yates loop of `shuffle`, indexed by the loop variable `i`
(counting down to 1); consumes one random draw per iteration. -/
def shuffleGo {α : Type} : ℕ → List α → (ℕ → ℕ) → ℕ → List α × ℕ
  | 0, arr, _, k => (arr, k)
  | i + 1, arr, g, k => shuffleGo i (listSwap arr (i + 1) (g k % (i + 2))) g (k + 1)

/-- `shuffle(array)`: Fisher-Yates on a copy, driven by the draw stream. -/
def shuffle {α : Type} (l : List α) (g : ℕ → ℕ) (k : ℕ) : List α × ℕ :=
  shuffleGo (l.length - 1) l g k

/-- `isSafe(board, row, col, num)`: `num` occurs nowhere in the row, the
column, or the 3x3 block of `(row, col)` (the queried cell included). -/
def isSafe (b : Board) (row col : ℕ) (num : ℕ) : Bool :=
  ((List.range 9).all fun x =>
    !(cellAt b row x == some num) && !(cellAt b x col == some num)) &&
  ((List.range 3).all fun i => (List.range 3).all fun j =>
    !(cellAt b (row / 3 * 3 + i) (col / 3 * 3 + j) == some num))

/-- The 81 cell positions in row-major order. -/
def allCells : List (ℕ × ℕ) :=
  (List.range 9).flatMap fun r => (List.range 9).map fun c => (r, c)

/-- The row-major scan of `fillBoard` for the first `null` cell. -/
def findEmpty (b : Board) : Option (ℕ × ℕ) :=
  allCells.find? fun p => cellAt b p.1 p.2 == none

/-- The candidate loop of `fillBoard` at cell `(r, c)`: try each shuffled
candidate; on a safe one, place it and run `fill`; on recursive failure reset
the cell to `null` and continue; return `false` when candidates run out. -/
def tryNums (fill : Board → (ℕ → ℕ) → ℕ → Bool × Board × ℕ) (r c : ℕ) :
    List ℕ → Board → (ℕ → ℕ) → ℕ → Bool × Board × ℕ
  | [], b, _, k => (false, b, k)
  | n :: rest, b, g, k =>
    if isSafe b r c n then
      match fill (setCell b r c (some n)) g k with
      | (true, b2, k2) => (true, b2, k2)
      | (false, b2, k2) => tryNums fill r c rest (setCell b2 r c none) g k2
    else tryNums fill r c rest b g k

/-- `fillBoard`, with explicit fuel bounding the recursion depth. -/
def fillBoardFuel : ℕ → Board → (ℕ → ℕ) → ℕ → Bool × Board × ℕ
  | 0, b, _, k => (false, b, k)
  | fuel + 1, b, g, k =>
    match findEmpty b with
    | none => (true, b, k)
    | some (r, c) =>
      let p := shuffle [1, 2, 3, 4, 5, 6, 7, 8, 9] g k
      tryNums (fillBoardFuel fuel) r c p.1 b g p.2

/-- `fillBoard(board)`: 82 units of fuel always suffice (at most 81 empty
cells, each recursive call filling one). -/
def fillBoard (b : Board) (g : ℕ → ℕ) (k : ℕ) : Bool × Board × ℕ :=
  fillBoardFuel 82 b g k

/-- The carving loop of `generateSudokuPuzzle`: walk the shuffled cell
indices, blanking non-`null` cells until `target` cells were blanked. -/
def carveGo (target : ℕ) : List ℕ → ℕ → Board → Board
  | [], _, b => b
  | idx :: rest, count, b =>
    if target ≤ count then b
    else
      let r := idx / 9
      let c := idx % 9
      if cellAt b r c == none then carveGo target rest count b
      else carveGo target rest (count + 1) (setCell b r c none)

/-- `generateSudokuPuzzle(emptyCells)`: fill an empty board, then blank
`emptyCells` randomly chosen cells, and return a clone. -/
def generateSudokuPuzzle (emptyCells : ℕ) (g : ℕ → ℕ) (k : ℕ) : Board :=
  let res := fillBoard emptyBoard g k
  let p := shuffle (List.range 81) g res.2.2
  cloneBoard (carveGo emptyCells p.1 0 res.2.1)

/-- Number of `null` cells among the 81 positions. -/
def emptyCount (b : Board) : ℕ :=
  (allCells.filter fun p => cellAt b p.1 p.2 == none).length

/-- No cell of the grid is empty. -/
def Full (b : Board) : Prop := ∀ r < 9, ∀ c < 9, cellAt b r c ≠ none

/-- Two positions share a row, a column, or a 3x3 block. -/
def sameGroup (r c r' c' : ℕ) : Prop :=
  r = r' ∨ c = c' ∨ (r / 3 = r' / 3 ∧ c / 3 = c' / 3)

/-- No two distinct positions of a common group hold the same value. -/
def Consistent (b : Board) : Prop :=
  ∀ r < 9, ∀ c < 9, ∀ r' < 9, ∀ c' < 9,
    (r, c) ≠ (r', c') → sameGroup r c r' c' →
      cellAt b r c = none ∨ cellAt b r c ≠ cellAt b r' c'

/-- Every present value lies in the range 1..9 (the spec's data model). -/
def ValsIn (b : Board) : Prop :=
  ∀ r < 9, ∀ c < 9, ∀ v, cellAt b r c = some v → 1 ≤ v ∧ v ≤ 9

/-- `b'` agrees with `b` on every non-empty cell of `b`. -/
def ExtendsB (b b' : Board) : Prop :=
  ∀ r < 9, ∀ c < 9, cellAt b r c ≠ none → cellAt b' r c = cellAt b r c

/-- `b'` is a complete valid solution extending `b`. -/
def Completion (b b' : Board) : Prop :=
  WF b' ∧ Full b' ∧ Consistent b' ∧ ValsIn b' ∧ ExtendsB b b'

instance (b : Board) : Decidable (WF b) := by unfold WF; infer_instance

instance (b : Board) : Decidable (Full b) := by unfold Full; infer_instance

instance (r c r' c' : ℕ) : Decidable (sameGroup r c r' c') := by
  unfold sameGroup; infer_instance

instance (b : Board) : Decidable (Consistent b) := by
  unfold Consistent
  exact @Nat.decidableBallLT 9 _ (fun r hr =>
    @Nat.decidableBallLT 9 _ (fun c hc =>
      @Nat.decidableBallLT 9 _ (fun r' hr' =>
        @Nat.decidableBallLT 9 _ (fun c' hc' => inferInstance))))

instance (b : Board) : Decidable (ValsIn b) := by unfold ValsIn; infer_instance

instance (b b' : Board) : Decidable (ExtendsB b b') := by unfold ExtendsB; infer_instance

instance (b b' : Board) : Decidable (Completion b b') := by unfold Completion; infer_instance

/-! ### Concrete inputs for witnesses and counterexamples -/

/-- A draw stream that steers every shuffle so that the first candidate tried
at the m-th cell visited (row-major, no backtracking occurs) is the value of
the cyclic solution `solC`; the fill run on the empty board is then
backtrack-free. -/
def g0 : ℕ → ℕ := fun n =>
  let m := n / 8
  let t := n % 8
  let i := 8 - t
  let r := m / 9
  let c := m % 9
  let v := (3 * (r % 3) + r / 3 + c) % 9 + 1
  if i = v - 1 then 0 else i

/-- The cyclic complete Sudoku solution produced by the steered run. -/
def solC : Board := [
   [some 1, some 2, some 3, some 4, some 5, some 6, some 7, some 8, some 9],
   [some 4, some 5, some 6, some 7, some 8, some 9, some 1, some 2, some 3],
   [some 7, some 8, some 9, some 1, some 2, some 3, some 4, some 5, some 6],
   [some 2, some 3, some 4, some 5, some 6, some 7, some 8, some 9, some 1],
   [some 5, some 6, some 7, some 8, some 9, some 1, some 2, some 3, some 4],
   [some 8, some 9, some 1, some 2, some 3, some 4, some 5, some 6, some 7],
   [some 3, some 4, some 5, some 6, some 7, some 8, some 9, some 1, some 2],
   [some 6, some 7, some 8, some 9, some 1, some 2, some 3, some 4, some 5],
   [some 9, some 1, some 2, some 3, some 4, some 5, some 6, some 7, some 8]]

/-- A 9x9 grid with no duplicate anywhere, yet unsolvable: cell (0,0) is
blocked for 2..9 by its row and for 1 by its column. -/
def badBoard : Board :=
  [[none, some 2, some 3, some 4, some 5, some 6, some 7, some 8, some 9],
   [some 1, none, none, none, none, none, none, none, none],
   List.replicate 9 none, List.replicate 9 none, List.replicate 9 none,
   List.replicate 9 none, List.replicate 9 none, List.replicate 9 none,
   List.replicate 9 none]

/-- A grid whose row 0 holds the value 5 at both column 0 and column 4. -/
def dupBoard : Board :=
  [[some 5, none, none, none, some 5, none, none, none, none],
   List.replicate 9 none, List.replicate 9 none, List.replicate 9 none,
   List.replicate 9 none, List.replicate 9 none, List.replicate 9 none,
   List.replicate 9 none, List.replicate 9 none]

/-! ### Basic lemmas on lists and cells -/

lemma getD_set_self {α : Type} (l : List α) (i : ℕ) (x d : α) (h : i < l.length) :
    (l.set i x).getD i d = x := by
  simp [List.getD_eq_getElem?_getD, List.getElem?_set_self h]

lemma getD_set_ne {α : Type} (l : List α) (i j : ℕ) (x d : α) (h : i ≠ j) :
    (l.set i x).getD j d = l.getD j d := by
  simp [List.getD_eq_getElem?_getD, List.getElem?_set_ne h]

lemma getD_mem {α : Type} (l : List α) (i : ℕ) (d : α) (h : i < l.length) :
    l.getD i d ∈ l := by
  rw [List.getD_eq_getElem?_getD, List.getElem?_eq_getElem h]
  exact List.getElem_mem h

lemma row_length (b : Board) (hb : WF b) (r : ℕ) (hr : r < 9) :
    (b.getD r []).length = 9 :=
  hb.2 _ (getD_mem b r [] (by rw [hb.1]; exact hr))

lemma cellAt_setCell_self (b : Board) (r c : ℕ) (v : Option ℕ)
    (hb : WF b) (hr : r < 9) (hc : c < 9) :
    cellAt (setCell b r c v) r c = v := by
  unfold cellAt setCell
  rw [getD_set_self _ _ _ _ (by rw [hb.1]; exact hr)]
  exact getD_set_self _ _ _ _ (by rw [row_length b hb r hr]; omega)

lemma cellAt_setCell_ne (b : Board) (r c r' c' : ℕ) (v : Option ℕ)
    (h : (r', c') ≠ (r, c)) :
    cellAt (setCell b r c v) r' c' = cellAt b r' c' := by
  unfold cellAt setCell
  rcases eq_or_ne r' r with rfl | hrr
  · have hcc : c' ≠ c := by intro hh; exact h (by rw [hh])
    by_cases hlen : r' < b.length
    · rw [getD_set_self _ _ _ _ hlen, getD_set_ne _ _ _ _ _ (Ne.symm hcc)]
    · rw [List.set_eq_of_length_le (by omega)]
  · rw [getD_set_ne _ _ _ _ _ (Ne.symm hrr)]

lemma WF_setCell (b : Board) (r c : ℕ) (v : Option ℕ) (hb : WF b) :
    WF (setCell b r c v) := by
  unfold setCell
  by_cases hlen : r < b.length
  · refine ⟨by simp [hb.1], ?_⟩
    intro row hrow
    rcases List.mem_or_eq_of_mem_set hrow with h | h
    · exact hb.2 _ h
    · subst h
      rw [List.length_set]
      exact hb.2 _ (getD_mem b r [] hlen)
  · rw [List.set_eq_of_length_le (by omega)]
    exact hb

/-! ### The shuffle produces a permutation of its input -/

lemma count_le_of_getElem (l : List ℕ) (i x : ℕ) (hi : i < l.length) :
    (if l[i] == x then 1 else 0) ≤ l.count x := by
  split
  next hb =>
    refine List.one_le_count_iff.mpr ?_
    rw [← eq_of_beq hb]
    exact List.getElem_mem hi
  next => omega

lemma listSwap_perm (l : List ℕ) (i j : ℕ) : (listSwap l i j).Perm l := by
  unfold listSwap
  split
  next a v h1 h2 =>
    have hi : i < l.length := (List.getElem?_eq_some_iff.mp h1).1
    have hj : j < l.length := (List.getElem?_eq_some_iff.mp h2).1
    have ha : l[i] = a := (List.getElem?_eq_some_iff.mp h1).2
    have hv : l[j] = v := (List.getElem?_eq_some_iff.mp h2).2
    rcases eq_or_ne i j with rfl | hij
    · rw [List.set_set]
      have hav : a = v := by rw [← ha, ← hv]
      subst hav
      rw [List.perm_iff_count]
      intro x
      rw [List.count_set a x l i hi]
      have hle := count_le_of_getElem l i x hi
      rw [ha] at hle ⊢
      omega
    · rw [List.perm_iff_count]
      intro x
      have hj2 : j < (l.set i v).length := by simpa using hj
      rw [List.count_set a x (l.set i v) j hj2, List.count_set v x l i hi]
      rw [List.getElem_set_ne hij, ha, hv]
      have hlei := count_le_of_getElem l i x hi
      have hlej := count_le_of_getElem l j x hj
      rw [ha] at hlei
      rw [hv] at hlej
      omega
  next => exact List.Perm.refl l

lemma shuffleGo_perm (g : ℕ → ℕ) :
    ∀ (i : ℕ) (arr : List ℕ) (k : ℕ), (shuffleGo i arr g k).1.Perm arr := by
  intro i
  induction i with
  | zero => intro arr k; exact List.Perm.refl arr
  | succ i ih =>
    intro arr k
    exact (ih _ (k + 1)).trans (listSwap_perm arr (i + 1) (g k % (i + 2)))

lemma shuffle_perm (l : List ℕ) (g : ℕ → ℕ) (k : ℕ) :
    (shuffle l g k).1.Perm l :=
  shuffleGo_perm g (l.length - 1) l k

/-! ### Cell enumeration, findEmpty, emptyCount -/

lemma mem_allCells (r c : ℕ) : (r, c) ∈ allCells ↔ r < 9 ∧ c < 9 := by
  simp only [allCells, List.mem_flatMap, List.mem_map, List.mem_range]
  constructor
  · rintro ⟨a, ha, d, hd, heq⟩
    obtain ⟨rfl, rfl⟩ := Prod.mk.injEq .. ▸ heq
    exact ⟨by omega, by omega⟩
  · rintro ⟨hr, hc⟩
    exact ⟨r, hr, c, hc, rfl⟩

lemma allCells_nodup : allCells.Nodup := by decide

lemma findEmpty_some (b : Board) (r c : ℕ) (h : findEmpty b = some (r, c)) :
    r < 9 ∧ c < 9 ∧ cellAt b r c = none := by
  have hmem := List.mem_of_find?_eq_some h
  have hp := List.find?_some h
  rw [mem_allCells] at hmem
  simp only [beq_iff_eq] at hp
  exact ⟨hmem.1, hmem.2, hp⟩

lemma findEmpty_none (b : Board) (h : findEmpty b = none) : Full b := by
  intro r hr c hc
  have := List.find?_eq_none.mp h (r, c) ((mem_allCells r c).mpr ⟨hr, hc⟩)
  simpa using this

lemma length_filter_flip {α : Type} (a : α) (p q : α → Bool) :
    ∀ (l : List α), l.Nodup → a ∈ l → (∀ x ∈ l, x ≠ a → p x = q x) →
      p a = true → q a = false →
      (l.filter p).length = (l.filter q).length + 1 := by
  intro l
  induction l with
  | nil => intro _ h; cases h
  | cons x tl ih =>
    intro hnd hmem hcong hpa hqa
    rcases List.mem_cons.mp hmem with heq | hmem2
    · subst heq
      have hnotin : a ∉ tl := (List.nodup_cons.mp hnd).1
      have htl : tl.filter p = tl.filter q :=
        List.filter_congr fun y hy =>
          hcong y (List.mem_cons_of_mem _ hy) (fun hya => hnotin (hya ▸ hy))
      rw [List.filter_cons, List.filter_cons, hpa, hqa]
      simp [htl]
    · have hx : x ≠ a := fun hxa => (List.nodup_cons.mp hnd).1 (hxa ▸ hmem2)
      have hpq := hcong x (List.mem_cons_self x tl) hx
      have ihh := ih (List.nodup_cons.mp hnd).2 hmem2
        (fun y hy hya => hcong y (List.mem_cons_of_mem _ hy) hya) hpa hqa
      rw [List.filter_cons, List.filter_cons, hpq]
      cases hqx : q x
      · simpa using ihh
      · simpa using ihh

lemma emptyCount_le (b : Board) : emptyCount b ≤ 81 := by
  have h := List.length_filter_le (fun p => cellAt b p.1 p.2 == none) allCells
  simpa [emptyCount] using h

lemma emptyCount_setCell_some (b : Board) (r c v : ℕ) (hb : WF b)
    (hr : r < 9) (hc : c < 9) (hnone : cellAt b r c = none) :
    emptyCount b = emptyCount (setCell b r c (some v)) + 1 := by
  unfold emptyCount
  refine length_filter_flip (r, c) _ _ allCells allCells_nodup
    ((mem_allCells r c).mpr ⟨hr, hc⟩) ?_ ?_ ?_
  · rintro ⟨x, y⟩ hxy hne
    simp only []
    rw [cellAt_setCell_ne b r c x y _ hne]
  · simpa using hnone
  · rw [cellAt_setCell_self b r c _ hb hr hc]
    simp

lemma emptyCount_setCell_none (b : Board) (r c : ℕ) (hb : WF b)
    (hr : r < 9) (hc : c < 9) (hsome : cellAt b r c ≠ none) :
    emptyCount (setCell b r c none) = emptyCount b + 1 := by
  unfold emptyCount
  refine length_filter_flip (r, c) _ _ allCells allCells_nodup
    ((mem_allCells r c).mpr ⟨hr, hc⟩) ?_ ?_ ?_
  · rintro ⟨x, y⟩ hxy hne
    simp only []
    rw [cellAt_setCell_ne b r c x y _ hne]
  · rw [cellAt_setCell_self b r c _ hb hr hc]
    rfl
  · simpa using hsome

/-! ### Characterisation of the safety check and of the conflict map -/

lemma pair_ne_iff (r c r' c' : ℕ) : (r', c') ≠ (r, c) ↔ r' ≠ r ∨ c' ≠ c := by
  constructor
  · intro h
    by_contra hcon
    push_neg at hcon
    exact h (by rw [hcon.1, hcon.2])
  · rintro (h | h) heq
    · exact h (congrArg Prod.fst heq)
    · exact h (congrArg Prod.snd heq)

lemma errGet_checkErrors (b : Board) (r c : ℕ) (hr : r < 9) (hc : c < 9) :
    errGet (checkErrors b) r c = errAt b r c := by
  unfold errGet checkErrors
  simp only [List.getD_eq_getElem?_getD]
  rw [List.getElem?_map, List.getElem?_range hr]
  simp only [Option.map_some', Option.getD_some]
  rw [List.getElem?_map, List.getElem?_range hc]
  simp

/-- Unfolding of `isSafe` into a proposition. -/
lemma isSafe_true_unfold (b : Board) (row col num : ℕ) :
    isSafe b row col num = true ↔
      (∀ x < 9, cellAt b row x ≠ some num ∧ cellAt b x col ≠ some num) ∧
      (∀ i < 3, ∀ j < 3, cellAt b (row / 3 * 3 + i) (col / 3 * 3 + j) ≠ some num) := by
  simp [isSafe, List.all_eq_true, List.mem_range]

/-- `isSafe` holds iff no cell of the three groups of `(row, col)` carries
`num`.  Because the queried cell is empty, its own position is harmless. -/
lemma isSafe_true_iff (b : Board) (row col num : ℕ) (hrow : row < 9) (hcol : col < 9) :
    isSafe b row col num = true ↔
      ∀ r' < 9, ∀ c' < 9, sameGroup row col r' c' → cellAt b r' c' ≠ some num := by
  rw [isSafe_true_unfold]
  constructor
  · rintro ⟨hrc, hbox⟩ r' hr' c' hc' hgrp
    rcases hgrp with heq | heq | ⟨hbr, hbc⟩
    · subst heq; exact (hrc c' hc').1
    · subst heq; exact fun hcell => (hrc r' hr').2 hcell
    · have h1 : r' = row / 3 * 3 + (r' - row / 3 * 3) ∧ r' - row / 3 * 3 < 3 := by omega
      have h2 : c' = col / 3 * 3 + (c' - col / 3 * 3) ∧ c' - col / 3 * 3 < 3 := by omega
      intro hcell
      exact hbox _ h1.2 _ h2.2 (by rw [← h1.1, ← h2.1]; exact hcell)
  · intro h
    refine ⟨fun x hx => ⟨?_, ?_⟩, fun i hi j hj => ?_⟩
    · exact h row hrow x hx (Or.inl rfl)
    · exact h x hx col hcol (Or.inr (Or.inl rfl))
    · exact h _ (by omega) _ (by omega) (Or.inr (Or.inr ⟨by omega, by omega⟩))

lemma isSafe_false_iff (b : Board) (row col num : ℕ) (hrow : row < 9) (hcol : col < 9)
    (hempty : cellAt b row col = none) :
    isSafe b row col num = false ↔
      ∃ r' c', r' < 9 ∧ c' < 9 ∧ (r', c') ≠ (row, col) ∧ sameGroup row col r' c' ∧
        cellAt b r' c' = some num := by
  rw [← Bool.not_eq_true, isSafe_true_iff b row col num hrow hcol]
  constructor
  · intro h
    push_neg at h
    obtain ⟨r', hr', c', hc', hgrp, hcell⟩ := h
    refine ⟨r', c', hr', hc', ?_, hgrp, hcell⟩
    intro heq
    have h1 : r' = row := congrArg Prod.fst heq
    have h2 : c' = col := congrArg Prod.snd heq
    rw [h1, h2, hempty] at hcell
    cases hcell
  · rintro ⟨r', c', hr', hc', hne, hgrp, hcell⟩ h
    exact h r' hr' c' hc' hgrp hcell

/-- Unfolding of the per-cell conflict flag when the cell holds a value. -/
lemma errAt_some_unfold (b : Board) (r c v : ℕ) (hcell : cellAt b r c = some v)
    (hv : v ≠ 0) :
    errAt b r c = true ↔
      (∃ i < 9, (i ≠ c ∧ cellAt b r i = some v) ∨ (i ≠ r ∧ cellAt b i c = some v)) ∨
      (∃ dr < 3, ∃ dc < 3, (r / 3 * 3 + dr ≠ r ∨ c / 3 * 3 + dc ≠ c) ∧
        cellAt b (r / 3 * 3 + dr) (c / 3 * 3 + dc) = some v) := by
  unfold errAt
  rw [hcell]
  have hfalsy : cellFalsy (some v) = false := by
    simpa [cellFalsy] using hv
  simp [hfalsy, List.any_eq_true, List.mem_range]

/-- The conflict flag of `checkErrors` is set exactly when the cell is
non-empty and some other position of one of its three groups carries the
identical value (for grids whose values respect the 1..9 data model). -/
lemma errAt_true_iff (b : Board) (r c : ℕ) (hr : r < 9) (hc : c < 9)
    (hvals : ValsIn b) :
    errAt b r c = true ↔
      ∃ v, cellAt b r c = some v ∧ ∃ r' c', r' < 9 ∧ c' < 9 ∧ (r', c') ≠ (r, c) ∧
        sameGroup r c r' c' ∧ cellAt b r' c' = some v := by
  cases hcell : cellAt b r c with
  | none =>
    have : errAt b r c = false := by
      unfold errAt
      rw [hcell]
      rfl
    rw [this]
    simp
  | some v =>
    have hv : v ≠ 0 := by
      have := hvals r hr c hc v hcell
      omega
    rw [errAt_some_unfold b r c v hcell hv]
    constructor
    · rintro (⟨i, hi, ⟨hic, hcelli⟩ | ⟨hir, hcelli⟩⟩ | ⟨dr, hdr, dc, hdc, hne, hcelli⟩)
      · exact ⟨v, rfl, r, i, hr, hi, (pair_ne_iff r c r i).mpr (Or.inr hic),
          Or.inl rfl, hcelli⟩
      · exact ⟨v, rfl, i, c, hi, hc, (pair_ne_iff r c i c).mpr (Or.inl hir),
          Or.inr (Or.inl rfl), hcelli⟩
      · exact ⟨v, rfl, _, _, by omega, by omega,
          (pair_ne_iff r c _ _).mpr (by omega), Or.inr (Or.inr ⟨by omega, by omega⟩),
          hcelli⟩
    · rintro ⟨w, hw, r', c', hr', hc', hne, hgrp, hcellw⟩
      injection hw with hwv
      rw [← hwv] at hcellw
      have hne2 := (pair_ne_iff r c r' c').mp hne
      rcases hgrp with heq | heq | ⟨hbr, hbc⟩
      · have hcc : c' ≠ c := by
          rcases hne2 with h | h
          · exact absurd heq.symm h
          · exact h
        rw [← heq] at hcellw
        exact Or.inl ⟨c', hc', Or.inl ⟨hcc, hcellw⟩⟩
      · have hrr : r' ≠ r := by
          rcases hne2 with h | h
          · exact h
          · exact absurd heq.symm h
        rw [← heq] at hcellw
        exact Or.inl ⟨r', hr', Or.inr ⟨hrr, hcellw⟩⟩
      · refine Or.inr ⟨r' - r / 3 * 3, by omega, c' - c / 3 * 3, by omega, ?_, ?_⟩
        · rcases hne2 with h | h
          · exact Or.inl (by omega)
          · exact Or.inr (by omega)
        · have e1 : r / 3 * 3 + (r' - r / 3 * 3) = r' := by omega
          have e2 : c / 3 * 3 + (c' - c / 3 * 3) = c' := by omega
          rw [e1, e2]
          exact hcellw

/-! ### setCell identities and invariant preservation -/

lemma set_getElem_self_eq {α : Type} (l : List α) (i : ℕ) (x : α) (h : l[i]? = some x) :
    l.set i x = l := by
  apply List.ext_getElem?
  intro n
  rcases eq_or_ne i n with rfl | hne
  · rw [List.getElem?_set_self (List.getElem?_eq_some_iff.mp h).1]
    exact h.symm
  · exact List.getElem?_set_ne hne

lemma setCell_setCell (b : Board) (r c : ℕ) (v w : Option ℕ) :
    setCell (setCell b r c v) r c w = setCell b r c w := by
  unfold setCell
  by_cases hlen : r < b.length
  · rw [getD_set_self _ _ _ _ hlen, List.set_set, List.set_set]
  · have h1 : b.set r ((b.getD r []).set c v) = b := List.set_eq_of_length_le (by omega)
    rw [h1]

lemma setCell_none_self (b : Board) (r c : ℕ) (hnone : cellAt b r c = none) :
    setCell b r c none = b := by
  unfold setCell
  by_cases hlen : r < b.length
  · unfold cellAt at hnone
    have hrow : b[r]? = some (b.getD r []) := by
      rw [List.getD_eq_getElem?_getD, List.getElem?_eq_getElem hlen]
      rfl
    by_cases hclen : c < (b.getD r []).length
    · have hcv : (b.getD r [])[c] = none := by
        rw [List.getD_eq_getElem?_getD, List.getElem?_eq_getElem hclen] at hnone
        simpa using hnone
      have hcel : (b.getD r [])[c]? = some none := by
        rw [List.getElem?_eq_getElem hclen, hcv]
      rw [set_getElem_self_eq _ _ _ hcel, set_getElem_self_eq _ _ _ hrow]
    · have hrowset : (b.getD r []).set c none = b.getD r [] :=
        List.set_eq_of_length_le (by omega)
      rw [hrowset, set_getElem_self_eq _ _ _ hrow]
  · exact List.set_eq_of_length_le (by omega)

lemma sameGroup_symm (r c r' c' : ℕ) (h : sameGroup r c r' c') : sameGroup r' c' r c := by
  rcases h with h | h | ⟨h1, h2⟩
  · exact Or.inl h.symm
  · exact Or.inr (Or.inl h.symm)
  · exact Or.inr (Or.inr ⟨h1.symm, h2.symm⟩)

lemma Consistent_setCell (b : Board) (r c num : ℕ) (hb : WF b) (hr : r < 9) (hc : c < 9)
    (hnone : cellAt b r c = none) (hcons : Consistent b)
    (hsafe : isSafe b r c num = true) :
    Consistent (setCell b r c (some num)) := by
  have hsafe2 := (isSafe_true_iff b r c num hr hc).mp hsafe
  intro x hx y hy x' hx' y' hy' hne hgrp
  by_cases h1 : (x, y) = (r, c)
  · have hxr : x = r := congrArg Prod.fst h1
    have hyc : y = c := congrArg Prod.snd h1
    have h2 : (x', y') ≠ (r, c) := fun hh => hne (h1.trans hh.symm)
    rw [hxr, hyc, cellAt_setCell_self b r c _ hb hr hc, cellAt_setCell_ne b r c x' y' _ h2]
    refine Or.inr fun hh => ?_
    refine hsafe2 x' hx' y' hy' ?_ hh.symm
    rw [← hxr, ← hyc]
    exact hgrp
  · rw [cellAt_setCell_ne b r c x y _ h1]
    by_cases h2 : (x', y') = (r, c)
    · have hxr : x' = r := congrArg Prod.fst h2
      have hyc : y' = c := congrArg Prod.snd h2
      rw [hxr, hyc, cellAt_setCell_self b r c _ hb hr hc]
      cases hcell : cellAt b x y with
      | none => exact Or.inl rfl
      | some w =>
        refine Or.inr fun hh => ?_
        refine hsafe2 x hx y hy ?_ (by rw [hcell, hh])
        have := sameGroup_symm x y x' y' hgrp
        rw [hxr, hyc] at this
        exact this
    · rw [cellAt_setCell_ne b r c x' y' _ h2]
      exact hcons x hx y hy x' hx' y' hy' hne hgrp

lemma ValsIn_setCell (b : Board) (r c num : ℕ) (hb : WF b) (hr : r < 9) (hc : c < 9)
    (hvals : ValsIn b) (h1 : 1 ≤ num) (h9 : num ≤ 9) :
    ValsIn (setCell b r c (some num)) := by
  intro x hx y hy v hv
  by_cases hxy : (x, y) = (r, c)
  · have hxr : x = r := congrArg Prod.fst hxy
    have hyc : y = c := congrArg Prod.snd hxy
    rw [hxr, hyc, cellAt_setCell_self b r c _ hb hr hc] at hv
    injection hv with hv2
    omega
  · rw [cellAt_setCell_ne b r c x y _ hxy] at hv
    exact hvals x hx y hy v hv

lemma ValsIn_setCell_none (b : Board) (r c : ℕ) (hb : WF b) (hr : r < 9) (hc : c < 9)
    (hvals : ValsIn b) : ValsIn (setCell b r c none) := by
  intro x hx y hy v hv
  by_cases hxy : (x, y) = (r, c)
  · have hxr : x = r := congrArg Prod.fst hxy
    have hyc : y = c := congrArg Prod.snd hxy
    rw [hxr, hyc, cellAt_setCell_self b r c _ hb hr hc] at hv
    cases hv
  · rw [cellAt_setCell_ne b r c x y _ hxy] at hv
    exact hvals x hx y hy v hv

lemma ExtendsB_setCell (b : Board) (r c : ℕ) (v : Option ℕ) (hnone : cellAt b r c = none) :
    ExtendsB b (setCell b r c v) := by
  intro x hx y hy hcell
  by_cases hxy : (x, y) = (r, c)
  · have hxr : x = r := congrArg Prod.fst hxy
    have hyc : y = c := congrArg Prod.snd hxy
    rw [hxr, hyc] at hcell
    exact absurd hnone hcell
  · exact cellAt_setCell_ne b r c x y _ hxy

lemma ExtendsB_trans (a b c : Board) (h1 : ExtendsB a b) (h2 : ExtendsB b c) :
    ExtendsB a c := by
  intro x hx y hy hcell
  rw [h2 x hx y hy (by rw [h1 x hx y hy hcell]; exact hcell), h1 x hx y hy hcell]

lemma Completion_setCell (b b' : Board) (r c v : ℕ) (hb : WF b) (hr : r < 9) (hc : c < 9)
    (hcomp : Completion b b') (hv : cellAt b' r c = some v) :
    Completion (setCell b r c (some v)) b' := by
  obtain ⟨h1, h2, h3, h4, h5⟩ := hcomp
  refine ⟨h1, h2, h3, h4, ?_⟩
  intro x hx y hy hcell
  by_cases hxy : (x, y) = (r, c)
  · have hxr : x = r := congrArg Prod.fst hxy
    have hyc : y = c := congrArg Prod.snd hxy
    rw [hxr, hyc, cellAt_setCell_self b r c _ hb hr hc, hv]
  · rw [cellAt_setCell_ne b r c x y _ hxy] at hcell ⊢
    exact h5 x hx y hy hcell

/-! ### Unfolding equations for the filler -/

lemma tryNums_nil (fill : Board → (ℕ → ℕ) → ℕ → Bool × Board × ℕ) (r c : ℕ)
    (b : Board) (g : ℕ → ℕ) (k : ℕ) :
    tryNums fill r c [] b g k = (false, b, k) := rfl

lemma tryNums_cons_notSafe (fill : Board → (ℕ → ℕ) → ℕ → Bool × Board × ℕ)
    (r c n : ℕ) (rest : List ℕ) (b : Board) (g : ℕ → ℕ) (k : ℕ)
    (hsafe : isSafe b r c n = false) :
    tryNums fill r c (n :: rest) b g k = tryNums fill r c rest b g k := by
  rw [tryNums, hsafe]
  simp

lemma tryNums_cons_success (fill : Board → (ℕ → ℕ) → ℕ → Bool × Board × ℕ)
    (r c n : ℕ) (rest : List ℕ) (b b2 : Board) (g : ℕ → ℕ) (k k2 : ℕ)
    (hsafe : isSafe b r c n = true)
    (hF : fill (setCell b r c (some n)) g k = (true, b2, k2)) :
    tryNums fill r c (n :: rest) b g k = (true, b2, k2) := by
  rw [tryNums, hsafe, if_pos rfl, hF]

lemma tryNums_cons_fail (fill : Board → (ℕ → ℕ) → ℕ → Bool × Board × ℕ)
    (r c n : ℕ) (rest : List ℕ) (b b2 : Board) (g : ℕ → ℕ) (k k2 : ℕ)
    (hsafe : isSafe b r c n = true)
    (hF : fill (setCell b r c (some n)) g k = (false, b2, k2)) :
    tryNums fill r c (n :: rest) b g k =
      tryNums fill r c rest (setCell b2 r c none) g k2 := by
  rw [tryNums, hsafe, if_pos rfl, hF]

lemma fillBoardFuel_succ_none (fuel : ℕ) (b : Board) (g : ℕ → ℕ) (k : ℕ)
    (hfe : findEmpty b = none) :
    fillBoardFuel (fuel + 1) b g k = (true, b, k) := by
  rw [fillBoardFuel, hfe]

lemma fillBoardFuel_succ_some (fuel : ℕ) (b : Board) (g : ℕ → ℕ) (k r c : ℕ)
    (hfe : findEmpty b = some (r, c)) :
    fillBoardFuel (fuel + 1) b g k =
      tryNums (fillBoardFuel fuel) r c (shuffle [1, 2, 3, 4, 5, 6, 7, 8, 9] g k).1 b g
        (shuffle [1, 2, 3, 4, 5, 6, 7, 8, 9] g k).2 := by
  rw [fillBoardFuel, hfe]

/-! ### The filler restores the board on failure -/

lemma tryNums_restore (r c : ℕ) (fill : Board → (ℕ → ℕ) → ℕ → Bool × Board × ℕ)
    (hfill : ∀ b2 g2 k2, WF b2 → (fill b2 g2 k2).1 = false → (fill b2 g2 k2).2.1 = b2) :
    ∀ (nums : List ℕ) (b : Board) (g : ℕ → ℕ) (k : ℕ), WF b → cellAt b r c = none →
      (tryNums fill r c nums b g k).1 = false → (tryNums fill r c nums b g k).2.1 = b := by
  intro nums
  induction nums with
  | nil => intro b g k _ _ _; rfl
  | cons n rest ih =>
    intro b g k hb hnone hfalse
    by_cases hsafe : isSafe b r c n = true
    · rcases hF : fill (setCell b r c (some n)) g k with ⟨fb, b2, k2⟩
      cases fb
      · have hb2 : b2 = setCell b r c (some n) := by
          have h1 := hfill _ g k (WF_setCell b r c _ hb) (by rw [hF])
          rw [hF] at h1
          exact h1
        have hreset : setCell b2 r c none = b := by
          rw [hb2, setCell_setCell, setCell_none_self b r c hnone]
        rw [tryNums_cons_fail fill r c n rest b b2 g k k2 hsafe hF, hreset]
          at hfalse ⊢
        exact ih b g k2 hb hnone hfalse
      · rw [tryNums_cons_success fill r c n rest b b2 g k k2 hsafe hF] at hfalse
        cases hfalse
    · have hsafe2 : isSafe b r c n = false := by
        cases h : isSafe b r c n
        · rfl
        · exact absurd h hsafe
      rw [tryNums_cons_notSafe fill r c n rest b g k hsafe2] at hfalse ⊢
      exact ih b g k hb hnone hfalse

lemma fillBoardFuel_restore : ∀ (fuel : ℕ) (b : Board) (g : ℕ → ℕ) (k : ℕ), WF b →
    (fillBoardFuel fuel b g k).1 = false → (fillBoardFuel fuel b g k).2.1 = b := by
  intro fuel
  induction fuel with
  | zero => intro b g k _ _; rfl
  | succ fuel ih =>
    intro b g k hb hfalse
    cases hfe : findEmpty b with
    | none =>
      rw [fillBoardFuel_succ_none fuel b g k hfe] at hfalse
      cases hfalse
    | some p =>
      rcases p with ⟨r, c⟩
      obtain ⟨hr, hc, hnone⟩ := findEmpty_some b r c hfe
      rw [fillBoardFuel_succ_some fuel b g k r c hfe] at hfalse ⊢
      exact tryNums_restore r c _ (fun b2 g2 k2 => ih b2 g2 k2) _ b g _ hb hnone hfalse

/-! ### Candidates drawn by the shuffle stay in 1..9 -/

lemma shuffle_nine_range (g : ℕ → ℕ) (k : ℕ) :
    ∀ n ∈ (shuffle [1, 2, 3, 4, 5, 6, 7, 8, 9] g k).1, 1 ≤ n ∧ n ≤ 9 := by
  intro n hn
  have h := (shuffle_perm [1, 2, 3, 4, 5, 6, 7, 8, 9] g k).mem_iff.mp hn
  simp at h
  omega

lemma mem_shuffle_nine (g : ℕ → ℕ) (k : ℕ) (v : ℕ) (h1 : 1 ≤ v) (h9 : v ≤ 9) :
    v ∈ (shuffle [1, 2, 3, 4, 5, 6, 7, 8, 9] g k).1 := by
  refine (shuffle_perm [1, 2, 3, 4, 5, 6, 7, 8, 9] g k).mem_iff.mpr ?_
  interval_cases v <;> simp

/-! ### A successful fill yields a full, consistent, extending grid -/

lemma tryNums_success (r c : ℕ) (hr : r < 9) (hc : c < 9)
    (fill : Board → (ℕ → ℕ) → ℕ → Bool × Board × ℕ)
    (hrestore : ∀ b2 g2 k2, WF b2 → (fill b2 g2 k2).1 = false → (fill b2 g2 k2).2.1 = b2)
    (hsuccess : ∀ b2 g2 k2, WF b2 → Consistent b2 → ValsIn b2 →
      (fill b2 g2 k2).1 = true →
      WF (fill b2 g2 k2).2.1 ∧ Consistent (fill b2 g2 k2).2.1 ∧
        ValsIn (fill b2 g2 k2).2.1 ∧ Full (fill b2 g2 k2).2.1 ∧
        ExtendsB b2 (fill b2 g2 k2).2.1) :
    ∀ (nums : List ℕ) (b : Board) (g : ℕ → ℕ) (k : ℕ),
      (∀ n ∈ nums, 1 ≤ n ∧ n ≤ 9) → WF b → Consistent b → ValsIn b →
      cellAt b r c = none →
      (tryNums fill r c nums b g k).1 = true →
      WF (tryNums fill r c nums b g k).2.1 ∧
        Consistent (tryNums fill r c nums b g k).2.1 ∧
        ValsIn (tryNums fill r c nums b g k).2.1 ∧
        Full (tryNums fill r c nums b g k).2.1 ∧
        ExtendsB b (tryNums fill r c nums b g k).2.1 := by
  intro nums
  induction nums with
  | nil =>
    intro b g k _ _ _ _ _ htrue
    rw [tryNums_nil] at htrue
    cases htrue
  | cons n rest ih =>
    intro b g k hrange hb hcons hvals hnone htrue
    by_cases hsafe : isSafe b r c n = true
    · rcases hF : fill (setCell b r c (some n)) g k with ⟨fb, b2, k2⟩
      cases fb
      · have hb2 : b2 = setCell b r c (some n) := by
          have h1 := hrestore _ g k (WF_setCell b r c _ hb) (by rw [hF])
          rw [hF] at h1
          exact h1
        have hreset : setCell b2 r c none = b := by
          rw [hb2, setCell_setCell, setCell_none_self b r c hnone]
        rw [tryNums_cons_fail fill r c n rest b b2 g k k2 hsafe hF, hreset]
          at htrue ⊢
        exact ih b g k2 (fun m hm => hrange m (List.mem_cons_of_mem _ hm))
          hb hcons hvals hnone htrue
      · have hn19 := hrange n (List.mem_cons_self n rest)
        have hmid : WF (setCell b r c (some n)) := WF_setCell b r c _ hb
        have hmidc : Consistent (setCell b r c (some n)) :=
          Consistent_setCell b r c n hb hr hc hnone hcons hsafe
        have hmidv : ValsIn (setCell b r c (some n)) :=
          ValsIn_setCell b r c n hb hr hc hvals hn19.1 hn19.2
        have hout := hsuccess _ g k hmid hmidc hmidv (by rw [hF])
        rw [hF] at hout
        rw [tryNums_cons_success fill r c n rest b b2 g k k2 hsafe hF]
        refine ⟨hout.1, hout.2.1, hout.2.2.1, hout.2.2.2.1, ?_⟩
        exact ExtendsB_trans b (setCell b r c (some n)) b2
          (ExtendsB_setCell b r c _ hnone) hout.2.2.2.2
    · have hsafe2 : isSafe b r c n = false := by
        cases h : isSafe b r c n
        · rfl
        · exact absurd h hsafe
      rw [tryNums_cons_notSafe fill r c n rest b g k hsafe2] at htrue ⊢
      exact ih b g k (fun m hm => hrange m (List.mem_cons_of_mem _ hm))
        hb hcons hvals hnone htrue

lemma fillBoardFuel_success : ∀ (fuel : ℕ) (b : Board) (g : ℕ → ℕ) (k : ℕ),
    WF b → Consistent b → ValsIn b →
    (fillBoardFuel fuel b g k).1 = true →
    WF (fillBoardFuel fuel b g k).2.1 ∧ Consistent (fillBoardFuel fuel b g k).2.1 ∧
      ValsIn (fillBoardFuel fuel b g k).2.1 ∧ Full (fillBoardFuel fuel b g k).2.1 ∧
      ExtendsB b (fillBoardFuel fuel b g k).2.1 := by
  intro fuel
  induction fuel with
  | zero => intro b g k _ _ _ htrue; cases htrue
  | succ fuel ih =>
    intro b g k hb hcons hvals htrue
    cases hfe : findEmpty b with
    | none =>
      rw [fillBoardFuel_succ_none fuel b g k hfe] at htrue ⊢
      exact ⟨hb, hcons, hvals, findEmpty_none b hfe,
        fun x hx y hy _ => rfl⟩
    | some p =>
      rcases p with ⟨r, c⟩
      obtain ⟨hr, hc, hnone⟩ := findEmpty_some b r c hfe
      rw [fillBoardFuel_succ_some fuel b g k r c hfe] at htrue ⊢
      exact tryNums_success r c hr hc _
        (fun b2 g2 k2 => fillBoardFuel_restore fuel b2 g2 k2)
        (fun b2 g2 k2 => ih b2 g2 k2) _ b g _
        (shuffle_nine_range g k) hb hcons hvals hnone htrue

/-! ### Completeness: a completable grid is always filled -/

lemma isSafe_of_completion (b b' : Board) (r c v : ℕ) (hr : r < 9) (hc : c < 9)
    (hcomp : Completion b b') (hv : cellAt b' r c = some v)
    (hnone : cellAt b r c = none) : isSafe b r c v = true := by
  rw [isSafe_true_iff b r c v hr hc]
  intro r' hr' c' hc' hgrp hcell
  have hne : (r, c) ≠ (r', c') := by
    intro heq
    have h1 : r = r' := congrArg Prod.fst heq
    have h2 : c = c' := congrArg Prod.snd heq
    rw [← h1, ← h2, hnone] at hcell
    cases hcell
  have hcell2 : cellAt b' r' c' = some v := by
    rw [hcomp.2.2.2.2 r' hr' c' hc' (by rw [hcell]; exact fun h => Option.noConfusion h)]
    exact hcell
  have := hcomp.2.2.1 r hr c hc r' hr' c' hc' hne hgrp
  rcases this with h | h
  · rw [hv] at h
    cases h
  · rw [hv, hcell2] at h
    exact h rfl

lemma tryNums_complete (r c : ℕ) (v : ℕ) (b : Board)
    (fill : Board → (ℕ → ℕ) → ℕ → Bool × Board × ℕ)
    (hb : WF b) (hnone : cellAt b r c = none)
    (hrestore : ∀ b2 g2 k2, WF b2 → (fill b2 g2 k2).1 = false → (fill b2 g2 k2).2.1 = b2)
    (hsafe : isSafe b r c v = true)
    (hcompl : ∀ g2 k2, (fill (setCell b r c (some v)) g2 k2).1 = true) :
    ∀ (nums : List ℕ) (g : ℕ → ℕ) (k : ℕ), v ∈ nums →
      (tryNums fill r c nums b g k).1 = true := by
  intro nums
  induction nums with
  | nil => intro g k hmem; cases hmem
  | cons n rest ih =>
    intro g k hmem
    by_cases hsafen : isSafe b r c n = true
    · rcases hF : fill (setCell b r c (some n)) g k with ⟨fb, b2, k2⟩
      cases fb
      · rcases List.mem_cons.mp hmem with heq | hmemr
        · rw [← heq] at hF
          have := hcompl g k
          rw [hF] at this
          cases this
        · have hb2 : b2 = setCell b r c (some n) := by
            have h1 := hrestore _ g k (WF_setCell b r c _ hb) (by rw [hF])
            rw [hF] at h1
            exact h1
          have hreset : setCell b2 r c none = b := by
            rw [hb2, setCell_setCell, setCell_none_self b r c hnone]
          rw [tryNums_cons_fail fill r c n rest b b2 g k k2 hsafen hF, hreset]
          exact ih g k2 hmemr
      · rw [tryNums_cons_success fill r c n rest b b2 g k k2 hsafen hF]
    · have hsafe2 : isSafe b r c n = false := by
        cases h : isSafe b r c n
        · rfl
        · exact absurd h hsafen
      rcases List.mem_cons.mp hmem with heq | hmemr
      · rw [← heq] at hsafe2
        rw [hsafe] at hsafe2
        cases hsafe2
      · rw [tryNums_cons_notSafe fill r c n rest b g k hsafe2]
        exact ih g k hmemr

lemma fillBoardFuel_complete : ∀ (fuel : ℕ) (b : Board) (g : ℕ → ℕ) (k : ℕ),
    WF b → emptyCount b < fuel → (∃ b', Completion b b') →
    (fillBoardFuel fuel b g k).1 = true := by
  intro fuel
  induction fuel with
  | zero => intro b g k _ h _; omega
  | succ fuel ih =>
    intro b g k hb hcount hex
    rcases hex with ⟨b', hcomp⟩
    cases hfe : findEmpty b with
    | none => rw [fillBoardFuel_succ_none fuel b g k hfe]
    | some p =>
      rcases p with ⟨r, c⟩
      obtain ⟨hr, hc, hnone⟩ := findEmpty_some b r c hfe
      obtain ⟨v, hv⟩ : ∃ v, cellAt b' r c = some v := by
        cases hcell : cellAt b' r c with
        | none => exact absurd hcell (hcomp.2.1 r hr c hc)
        | some w => exact ⟨w, rfl⟩
      have hv19 := hcomp.2.2.2.1 r hr c hc v hv
      have hsafe := isSafe_of_completion b b' r c v hr hc hcomp hv hnone
      have hcompl : ∀ g2 k2, (fillBoardFuel fuel (setCell b r c (some v)) g2 k2).1 = true := by
        intro g2 k2
        refine ih _ g2 k2 (WF_setCell b r c _ hb) ?_ ?_
        · have := emptyCount_setCell_some b r c v hb hr hc hnone
          omega
        · exact ⟨b', Completion_setCell b b' r c v hb hr hc hcomp hv⟩
      rw [fillBoardFuel_succ_some fuel b g k r c hfe]
      exact tryNums_complete r c v b _ hb hnone
        (fun b2 g2 k2 => fillBoardFuel_restore fuel b2 g2 k2) hsafe hcompl _ g _
        (mem_shuffle_nine g k v hv19.1 hv19.2)

/-! ### Carving: counting and frame lemmas -/

lemma carveGo_cons_break (target : ℕ) (idx : ℕ) (rest : List ℕ) (count : ℕ) (b : Board)
    (h : target ≤ count) :
    carveGo target (idx :: rest) count b = b := by
  rw [carveGo, if_pos h]

lemma carveGo_cons_skip (target : ℕ) (idx : ℕ) (rest : List ℕ) (count : ℕ) (b : Board)
    (h : ¬ target ≤ count) (hcell : cellAt b (idx / 9) (idx % 9) = none) :
    carveGo target (idx :: rest) count b = carveGo target rest count b := by
  rw [carveGo, if_neg h]
  simp only [hcell]
  rfl

lemma carveGo_cons_blank (target : ℕ) (idx : ℕ) (rest : List ℕ) (count : ℕ) (b : Board)
    (h : ¬ target ≤ count) (hcell : cellAt b (idx / 9) (idx % 9) ≠ none) :
    carveGo target (idx :: rest) count b =
      carveGo target rest (count + 1) (setCell b (idx / 9) (idx % 9) none) := by
  rw [carveGo, if_neg h]
  have hfalse : (cellAt b (idx / 9) (idx % 9) == none) = false := by
    cases hc : cellAt b (idx / 9) (idx % 9) with
    | none => exact absurd hc hcell
    | some w => rfl
  simp only [hfalse]
  rfl

lemma carveGo_of_le (target count : ℕ) (b : Board) (h : target ≤ count) :
    ∀ (l : List ℕ), carveGo target l count b = b := by
  intro l
  cases l with
  | nil => rfl
  | cons idx rest => exact carveGo_cons_break target idx rest count b h

lemma carveGo_WF (target : ℕ) :
    ∀ (l : List ℕ) (count : ℕ) (b : Board), WF b → WF (carveGo target l count b) := by
  intro l
  induction l with
  | nil => intro count b hb; exact hb
  | cons idx rest ih =>
    intro count b hb
    by_cases h : target ≤ count
    · rw [carveGo_cons_break target idx rest count b h]; exact hb
    · by_cases hcell : cellAt b (idx / 9) (idx % 9) = none
      · rw [carveGo_cons_skip target idx rest count b h hcell]
        exact ih count b hb
      · rw [carveGo_cons_blank target idx rest count b h hcell]
        exact ih (count + 1) _ (WF_setCell b _ _ _ hb)

lemma carveGo_subgrid (target : ℕ) :
    ∀ (l : List ℕ) (count : ℕ) (b : Board), WF b → (∀ idx ∈ l, idx < 81) →
      ∀ r < 9, ∀ c < 9,
        cellAt (carveGo target l count b) r c = cellAt b r c ∨
        cellAt (carveGo target l count b) r c = none := by
  intro l
  induction l with
  | nil => intro count b _ _ r hr c hc; exact Or.inl rfl
  | cons idx rest ih =>
    intro count b hb hlt r hr c hc
    by_cases h : target ≤ count
    · rw [carveGo_cons_break target idx rest count b h]; exact Or.inl rfl
    · by_cases hcell : cellAt b (idx / 9) (idx % 9) = none
      · rw [carveGo_cons_skip target idx rest count b h hcell]
        exact ih count b hb (fun j hj => hlt j (List.mem_cons_of_mem _ hj)) r hr c hc
      · rw [carveGo_cons_blank target idx rest count b h hcell]
        have hidx := hlt idx (List.mem_cons_self idx rest)
        have hrec := ih (count + 1) (setCell b (idx / 9) (idx % 9) none)
          (WF_setCell b _ _ _ hb) (fun j hj => hlt j (List.mem_cons_of_mem _ hj)) r hr c hc
        rcases hrec with hrec | hrec
        · by_cases hpos : (r, c) = (idx / 9, idx % 9)
          · have h1 : r = idx / 9 := congrArg Prod.fst hpos
            have h2 : c = idx % 9 := congrArg Prod.snd hpos
            rw [h1, h2] at hrec ⊢
            rw [cellAt_setCell_self b _ _ _ hb (by omega) (by omega)] at hrec
            exact Or.inr hrec
          · rw [cellAt_setCell_ne b _ _ r c _ hpos] at hrec
            exact Or.inl hrec
        · exact Or.inr hrec

lemma carveGo_emptyCount (target : ℕ) :
    ∀ (l : List ℕ) (count : ℕ) (b : Board), WF b → l.Nodup →
      (∀ idx ∈ l, idx < 81 ∧ cellAt b (idx / 9) (idx % 9) ≠ none) →
      emptyCount (carveGo target l count b) =
        emptyCount b + min (target - count) l.length := by
  intro l
  induction l with
  | nil =>
    intro count b _ _ _
    rw [show carveGo target [] count b = b from rfl]
    simp
  | cons idx rest ih =>
    intro count b hb hnd hcells
    by_cases h : target ≤ count
    · rw [carveGo_cons_break target idx rest count b h]
      have : target - count = 0 := by omega
      simp [this]
    · have hidx := hcells idx (List.mem_cons_self idx rest)
      rw [carveGo_cons_blank target idx rest count b h hidx.2]
      have hr9 : idx / 9 < 9 := by omega
      have hc9 : idx % 9 < 9 := by omega
      have hcnt := emptyCount_setCell_none b (idx / 9) (idx % 9) hb hr9 hc9 hidx.2
      have hrec := ih (count + 1) (setCell b (idx / 9) (idx % 9) none)
        (WF_setCell b _ _ _ hb) ((List.nodup_cons.mp hnd).2) ?_
      · rw [hrec, hcnt]
        have hlen : (idx :: rest).length = rest.length + 1 := rfl
        rw [hlen]
        omega
      · intro j hj
        have hjlt := hcells j (List.mem_cons_of_mem _ hj)
        refine ⟨hjlt.1, ?_⟩
        have hne : (j / 9, j % 9) ≠ (idx / 9, idx % 9) := by
          intro heq
          have h1 : j / 9 = idx / 9 := congrArg Prod.fst heq
          have h2 : j % 9 = idx % 9 := congrArg Prod.snd heq
          have : j = idx := by omega
          exact (List.nodup_cons.mp hnd).1 (this ▸ hj)
        rw [cellAt_setCell_ne b _ _ _ _ _ hne]
        exact hjlt.2

/-! ### Derived facts used by the claims -/

lemma cloneBoard_eq (b : Board) : cloneBoard b = b := by
  simp [cloneBoard]

lemma generateSudokuPuzzle_eq (n : ℕ) (g : ℕ → ℕ) (k : ℕ) :
    generateSudokuPuzzle n g k =
      cloneBoard (carveGo n (shuffle (List.range 81) g (fillBoard emptyBoard g k).2.2).1 0
        (fillBoard emptyBoard g k).2.1) := rfl

lemma emptyCount_eq_zero_of_full (b : Board) (hfull : Full b) : emptyCount b = 0 := by
  unfold emptyCount
  rw [List.length_eq_zero]
  refine List.filter_eq_nil_iff.mpr ?_
  rintro ⟨r, c⟩ hmem
  have hb := (mem_allCells r c).mp hmem
  have := hfull r hb.1 c hb.2
  simpa only [beq_iff_eq] using this

lemma Consistent_of_subgrid (b1 carved : Board)
    (hsub : ∀ r < 9, ∀ c < 9, cellAt carved r c = cellAt b1 r c ∨ cellAt carved r c = none)
    (hcons : Consistent b1) : Consistent carved := by
  intro x hx y hy x' hx' y' hy' hne hgrp
  rcases hsub x hx y hy with h1 | h1
  · rcases hsub x' hx' y' hy' with h2 | h2
    · rw [h1, h2]
      exact hcons x hx y hy x' hx' y' hy' hne hgrp
    · cases hcell : cellAt carved x y with
      | none => exact Or.inl rfl
      | some w =>
        refine Or.inr ?_
        rw [h2]
        exact fun hh => Option.noConfusion hh
  · exact Or.inl h1

lemma ValsIn_of_subgrid (b1 carved : Board)
    (hsub : ∀ r < 9, ∀ c < 9, cellAt carved r c = cellAt b1 r c ∨ cellAt carved r c = none)
    (hvals : ValsIn b1) : ValsIn carved := by
  intro x hx y hy v hv
  rcases hsub x hx y hy with h1 | h1
  · rw [h1] at hv
    exact hvals x hx y hy v hv
  · rw [h1] at hv
    cases hv

lemma errGet_false_of_consistent (b : Board) (hcons : Consistent b) (hvals : ValsIn b)
    (r c : ℕ) (hr : r < 9) (hc : c < 9) :
    errGet (checkErrors b) r c = false := by
  cases herr : errGet (checkErrors b) r c
  · rfl
  · rw [errGet_checkErrors b r c hr hc] at herr
    obtain ⟨v, hv, r', c', hr', hc', hne, hgrp, hcell⟩ :=
      (errAt_true_iff b r c hr hc hvals).mp herr
    have := hcons r hr c hc r' hr' c' hc' (fun hh => hne hh.symm) hgrp
    rcases this with h | h
    · rw [hv] at h
      cases h
    · rw [hv, hcell] at h
      exact absurd rfl h

lemma isCleared_true_iff (b : Board) (hvals : ValsIn b) :
    isCleared b (checkErrors b) = true ↔
      (∀ r < 9, ∀ c < 9, cellAt b r c ≠ none) ∧
      (∀ r < 9, ∀ c < 9, errGet (checkErrors b) r c = false) := by
  unfold isCleared
  simp only [List.all_eq_true, List.mem_range, Bool.and_eq_true, Bool.not_eq_true']
  constructor
  · intro h
    constructor
    · intro r hr c hc hnone
      have := (h r hr c hc).1
      rw [hnone] at this
      cases this
    · intro r hr c hc
      exact (h r hr c hc).2
  · rintro ⟨h1, h2⟩ r hr c hc
    refine ⟨?_, h2 r hr c hc⟩
    cases hcell : cellAt b r c with
    | none => exact absurd hcell (h1 r hr c hc)
    | some w =>
      have hw := hvals r hr c hc w hcell
      simp only [cellFalsy, beq_eq_false_iff_ne, ne_eq]
      omega

/-- Pigeonhole core for claim 1: on a full, consistent grid with values in
1..9, any nine pairwise-grouped distinct positions carry each value exactly
once. -/
lemma group_exists_unique (b : Board) (hfull : Full b) (hcons : Consistent b)
    (hvals : ValsIn b) (pos : ℕ → ℕ × ℕ)
    (hbound : ∀ d < 9, (pos d).1 < 9 ∧ (pos d).2 < 9)
    (hinj : ∀ d < 9, ∀ e < 9, pos d = pos e → d = e)
    (hgrp : ∀ d < 9, ∀ e < 9, sameGroup (pos d).1 (pos d).2 (pos e).1 (pos e).2)
    (v : ℕ) (hv1 : 1 ≤ v) (hv9 : v ≤ 9) :
    ∃! d, d < 9 ∧ cellAt b (pos d).1 (pos d).2 = some v := by
  have hval : ∀ d < 9, ∃ w, cellAt b (pos d).1 (pos d).2 = some w ∧ 1 ≤ w ∧ w ≤ 9 := by
    intro d hd
    obtain ⟨hd1, hd2⟩ := hbound d hd
    cases hcell : cellAt b (pos d).1 (pos d).2 with
    | none => exact absurd hcell (hfull _ hd1 _ hd2)
    | some w => exact ⟨w, rfl, hvals _ hd1 _ hd2 w hcell⟩
  have hdiff : ∀ d < 9, ∀ e < 9, d ≠ e →
      cellAt b (pos d).1 (pos d).2 ≠ cellAt b (pos e).1 (pos e).2 := by
    intro d hd e he hde
    have hposne : (pos d) ≠ (pos e) := fun hh => hde (hinj d hd e he hh)
    have hposne2 : ((pos d).1, (pos d).2) ≠ ((pos e).1, (pos e).2) := by
      intro hh
      apply hposne
      have h1 : (pos d).1 = (pos e).1 := congrArg Prod.fst hh
      have h2 : (pos d).2 = (pos e).2 := congrArg Prod.snd hh
      exact Prod.ext h1 h2
    have := hcons (pos d).1 (hbound d hd).1 (pos d).2 (hbound d hd).2
      (pos e).1 (hbound e he).1 (pos e).2 (hbound e he).2 hposne2 (hgrp d hd e he)
    rcases this with h | h
    · obtain ⟨w, hw, _⟩ := hval d hd
      rw [hw] at h
      cases h
    · exact h
  -- existence via cardinality
  set f : ℕ → ℕ := fun d => (cellAt b (pos d).1 (pos d).2).getD 0 with hf
  have hinjOn : Set.InjOn f (Finset.range 9) := by
    intro d hd e he hfe
    simp only [Finset.coe_range, Set.mem_Iio] at hd he
    by_contra hde
    obtain ⟨wd, hwd, _⟩ := hval d hd
    obtain ⟨we, hwe, _⟩ := hval e he
    have : cellAt b (pos d).1 (pos d).2 ≠ cellAt b (pos e).1 (pos e).2 :=
      hdiff d hd e he hde
    rw [hwd, hwe] at this
    rw [hf] at hfe
    simp only [hwd, hwe, Option.getD_some] at hfe
    exact this (by rw [hfe])
  have hsubset : (Finset.range 9).image f ⊆ Finset.Icc 1 9 := by
    intro w hw
    obtain ⟨d, hd, hfd⟩ := Finset.mem_image.mp hw
    have hd9 := Finset.mem_range.mp hd
    obtain ⟨wd, hwd, hw1, hw9⟩ := hval d hd9
    rw [hf] at hfd
    simp only [hwd, Option.getD_some] at hfd
    rw [← hfd]
    exact Finset.mem_Icc.mpr ⟨hw1, hw9⟩
  have hcard : ((Finset.range 9).image f).card = 9 := by
    rw [Finset.card_image_of_injOn hinjOn, Finset.card_range]
  have heq : (Finset.range 9).image f = Finset.Icc 1 9 := by
    refine Finset.eq_of_subset_of_card_le hsubset ?_
    rw [hcard, Nat.card_Icc]
  have hvmem : v ∈ (Finset.range 9).image f := by
    rw [heq]
    exact Finset.mem_Icc.mpr ⟨hv1, hv9⟩
  obtain ⟨d, hd, hfd⟩ := Finset.mem_image.mp hvmem
  have hd9 := Finset.mem_range.mp hd
  obtain ⟨wd, hwd, _, _⟩ := hval d hd9
  rw [hf] at hfd
  simp only [hwd, Option.getD_some] at hfd
  refine ⟨d, ⟨hd9, by rw [hwd, hfd]⟩, ?_⟩
  rintro e ⟨he9, hecell⟩
  by_contra hed
  have := hdiff e he9 d hd9 hed
  rw [hecell, hwd, hfd] at this
  exact this rfl

/-! ### The claims -/

/-- Claim C2: for every grid of the 9x9 data model (values in 1..9), the
conflict map of `checkErrors` flags a cell exactly when the cell is non-empty
and some other position of its row, column, or 3x3 box holds the identical
value; empty cells are never flagged; and whenever two distinct cells of a
common group hold the same value, both are flagged. -/
theorem claim2_conflict_map (b : Board) (hvals : ValsIn b)
    (r : ℕ) (c : ℕ) (hr : r < 9) (hc : c < 9) :
    (errGet (checkErrors b) r c = true ↔
      ∃ v, cellAt b r c = some v ∧ ∃ r' c', r' < 9 ∧ c' < 9 ∧ (r', c') ≠ (r, c) ∧
        sameGroup r c r' c' ∧ cellAt b r' c' = some v) ∧
    (cellAt b r c = none → errGet (checkErrors b) r c = false) ∧
    (∀ r' c' v, r' < 9 → c' < 9 → (r', c') ≠ (r, c) → sameGroup r c r' c' →
      cellAt b r c = some v → cellAt b r' c' = some v →
      errGet (checkErrors b) r c = true ∧ errGet (checkErrors b) r' c' = true) := by
  have hiff : ∀ x y, x < 9 → y < 9 → (errGet (checkErrors b) x y = true ↔
      ∃ v, cellAt b x y = some v ∧ ∃ r' c', r' < 9 ∧ c' < 9 ∧ (r', c') ≠ (x, y) ∧
        sameGroup x y r' c' ∧ cellAt b r' c' = some v) := by
    intro x y hx hy
    rw [errGet_checkErrors b x y hx hy]
    exact errAt_true_iff b x y hx hy hvals
  refine ⟨hiff r c hr hc, ?_, ?_⟩
  · intro hnone
    cases herr : errGet (checkErrors b) r c
    · rfl
    · obtain ⟨v, hv, _⟩ := (hiff r c hr hc).mp herr
      rw [hnone] at hv
      cases hv
  · intro r' c' v hr' hc' hne hgrp hv hv'
    constructor
    · exact (hiff r c hr hc).mpr ⟨v, hv, r', c', hr', hc', hne, hgrp, hv'⟩
    · refine (hiff r' c' hr' hc').mpr ⟨v, hv', r, c, hr, hc, ?_, sameGroup_symm r c r' c' hgrp, hv⟩
      intro heq
      exact hne heq.symm

/-- Claim C2 witness: on the grid with a 5 at (0,0) and (0,4), the flag of
cell (0,0) is governed by the stated equivalence. -/
theorem claim2_witness :
    (errGet (checkErrors dupBoard) 0 0 = true ↔
      ∃ v, cellAt dupBoard 0 0 = some v ∧ ∃ r' c', r' < 9 ∧ c' < 9 ∧
        (r', c') ≠ (0, 0) ∧ sameGroup 0 0 r' c' ∧ cellAt dupBoard r' c' = some v) ∧
    (cellAt dupBoard 0 0 = none → errGet (checkErrors dupBoard) 0 0 = false) ∧
    (∀ r' c' v, r' < 9 → c' < 9 → (r', c') ≠ (0, 0) → sameGroup 0 0 r' c' →
      cellAt dupBoard 0 0 = some v → cellAt dupBoard r' c' = some v →
      errGet (checkErrors dupBoard) 0 0 = true ∧
        errGet (checkErrors dupBoard) r' c' = true) :=
  claim2_conflict_map dupBoard (by decide) 0 0 (by decide) (by decide)

/-- Claim C3: for every grid of the data model and the conflict map that
`checkErrors` computes for it, `isCleared` returns true exactly when no cell
is empty and no conflict flag is set. -/
theorem claim3_isCleared (b : Board) (hvals : ValsIn b) :
    isCleared b (checkErrors b) = true ↔
      (∀ r < 9, ∀ c < 9, cellAt b r c ≠ none) ∧
      (∀ r < 9, ∀ c < 9, errGet (checkErrors b) r c = false) :=
  isCleared_true_iff b hvals

/-- Claim C3 witness: the equivalence instantiated at the complete valid
grid `solC`. -/
theorem claim3_witness :
    isCleared solC (checkErrors solC) = true ↔
      (∀ r < 9, ∀ c < 9, cellAt solC r c ≠ none) ∧
      (∀ r < 9, ∀ c < 9, errGet (checkErrors solC) r c = false) :=
  claim3_isCleared solC (by decide)

/-- Claim C5 counterexample: `badBoard` is well-formed, in range, and free of
duplicates in every row, column and box, yet `fillBoard` fails on it — the
claim "the filler fails only if the input grid already contains a
contradiction" is false as stated. -/
theorem claim5_counterexample :
    WF badBoard ∧ Consistent badBoard ∧ ValsIn badBoard ∧
      (fillBoard badBoard (fun _ => 0) 0).1 = false := by
  refine ⟨by decide, by decide, by decide, by decide⟩

/-- Claim C5 (amended): the filler can fail even on an input grid that
contains no contradiction (the counterexample above is such a grid).  For
every well-formed input grid with values in 1..9 whose non-empty cells
contain no row, column, or box duplicates, `fillBoard` fails exactly when
the grid admits no complete valid solution extending it; the all-empty grid
always succeeds.  Nothing is asserted about inputs that already contain
duplicates: `fillBoard` never re-validates pre-filled cells, so such grids
are outside this statement. -/
theorem claim5_amended_fill_fails_iff_no_completion :
    (∀ b g k, WF b → Consistent b → ValsIn b →
      ((fillBoard b g k).1 = false ↔ ¬ ∃ b', Completion b b')) ∧
    (∀ (g : ℕ → ℕ) (k : ℕ), (fillBoard emptyBoard g k).1 = true) := by
  have hmain : ∀ (b : Board) (g : ℕ → ℕ) (k : ℕ), WF b → Consistent b → ValsIn b →
      ((fillBoard b g k).1 = false ↔ ¬ ∃ b', Completion b b') := by
    intro b g k hb hcons hvals
    constructor
    · intro hfail hex
      have := fillBoardFuel_complete 82 b g k hb
        (by have := emptyCount_le b; omega) hex
      rw [show (fillBoardFuel 82 b g k) = fillBoard b g k from rfl] at this
      rw [this] at hfail
      cases hfail
    · intro hnex
      cases hres : (fillBoard b g k).1
      · rfl
      · exfalso
        have hout := fillBoardFuel_success 82 b g k hb hcons hvals hres
        exact hnex ⟨(fillBoard b g k).2.1,
          hout.1, hout.2.2.2.1, hout.2.1, hout.2.2.1, hout.2.2.2.2⟩
  refine ⟨hmain, ?_⟩
  intro g k
  cases hres : (fillBoard emptyBoard g k).1
  · exfalso
    have := (hmain emptyBoard g k (by decide) (by decide) (by decide)).mp hres
    exact this ⟨solC, by decide⟩
  · rfl

/-- Claim C5 witness: the amended equivalence instantiated at `badBoard`
(which indeed has no completion, so the filler fails). -/
theorem claim5_witness :
    (fillBoard badBoard (fun _ => 0) 0).1 = false ↔ ¬ ∃ b', Completion badBoard b' :=
  claim5_amended_fill_fails_iff_no_completion.1 badBoard (fun _ => 0) 0
    (by decide) (by decide) (by decide)

/-- Claim C6: whenever `fillBoard` reports failure, the board it leaves
behind is exactly the board it was given — every value placed during the
failed search has been undone. -/
theorem claim6_failure_restores_board (b : Board) (g : ℕ → ℕ) (k : ℕ)
    (hb : WF b) (hfail : (fillBoard b g k).1 = false) :
    (fillBoard b g k).2.1 = b :=
  fillBoardFuel_restore 82 b g k hb hfail

/-- Claim C6 witness: the failing run on `badBoard` returns the board
unchanged. -/
theorem claim6_witness : (fillBoard badBoard (fun _ => 0) 0).2.1 = badBoard :=
  claim6_failure_restores_board badBoard (fun _ => 0) 0 (by decide) (by decide)

/-- Claim C7: when the filler queries `isSafe` for a cell (which is always
empty, having been located by the row-major scan), the candidate is rejected
exactly when the identical value sits at some position other than the cell
itself in the same row, column, or box. -/
theorem claim7_isSafe_rejects_iff (b : Board) (row col num : ℕ)
    (hrow : row < 9) (hcol : col < 9) (hempty : cellAt b row col = none) :
    isSafe b row col num = false ↔
      ∃ r' c', r' < 9 ∧ c' < 9 ∧ (r', c') ≠ (row, col) ∧ sameGroup row col r' c' ∧
        cellAt b r' c' = some num :=
  isSafe_false_iff b row col num hrow hcol hempty

/-- Claim C7 witness: the equivalence instantiated at cell (0,0) of
`badBoard` with candidate 1 (rejected because of the 1 at (1,0)). -/
theorem claim7_witness :
    isSafe badBoard 0 0 1 = false ↔
      ∃ r' c', r' < 9 ∧ c' < 9 ∧ (r', c') ≠ (0, 0) ∧ sameGroup 0 0 r' c' ∧
        cellAt badBoard r' c' = some 1 :=
  claim7_isSafe_rejects_iff badBoard 0 0 1 (by decide) (by decide) (by decide)

/-- Claim C9: given one fixed sequence of random draws, the shuffle, the
filler and the generator are deterministic: runs on equal inputs with equal
draw sequences yield equal outputs. -/
theorem claim9_deterministic (b : Board) (g1 g2 : ℕ → ℕ) (k : ℕ)
    (hg : ∀ j, g1 j = g2 j) :
    (∀ l : List ℕ, shuffle l g1 k = shuffle l g2 k) ∧
    fillBoard b g1 k = fillBoard b g2 k ∧
    (∀ n, generateSudokuPuzzle n g1 k = generateSudokuPuzzle n g2 k) := by
  have hgg : g1 = g2 := funext hg
  rw [hgg]
  exact ⟨fun l => rfl, rfl, fun n => rfl⟩

/-- Claim C9 witness: instantiated with two syntactically different but
pointwise-equal draw streams. -/
theorem claim9_witness :
    (∀ l : List ℕ, shuffle l (fun j => j + 0) 0 = shuffle l (fun j => j) 0) ∧
    fillBoard emptyBoard (fun j => j + 0) 0 = fillBoard emptyBoard (fun j => j) 0 ∧
    (∀ n, generateSudokuPuzzle n (fun j => j + 0) 0 =
      generateSudokuPuzzle n (fun j => j) 0) :=
  claim9_deterministic emptyBoard (fun j => j + 0) (fun j => j) 0 (fun j => rfl)

lemma length_filter_not_plus {α : Type} (l : List α) (p : α → Bool) :
    (l.filter fun a => !(p a)).length + (l.filter p).length = l.length := by
  induction l with
  | nil => rfl
  | cons x tl ih =>
    rw [List.filter_cons, List.filter_cons]
    cases h : p x <;> simp [h] <;> omega

/-- Claim C1: every grid produced by a successful run of `fillBoard` on the
all-empty grid carries each value 1..9 exactly once in every row, every
column, and every 3x3 box (no duplicates, no omissions). -/
theorem claim1_fill_groups_exactly_once (g : ℕ → ℕ) (k : ℕ) (b' : Board) (k' : ℕ)
    (hrun : fillBoard emptyBoard g k = (true, b', k')) :
    ∀ t < 9, ∀ v, 1 ≤ v → v ≤ 9 →
      (∃! c, c < 9 ∧ cellAt b' t c = some v) ∧
      (∃! r, r < 9 ∧ cellAt b' r t = some v) ∧
      (∃! d, d < 9 ∧ cellAt b' (t / 3 * 3 + d / 3) (t % 3 * 3 + d % 3) = some v) := by
  have hfb : fillBoard emptyBoard g k = fillBoardFuel 82 emptyBoard g k := rfl
  rw [hfb] at hrun
  have h1 : (fillBoardFuel 82 emptyBoard g k).1 = true := by rw [hrun]
  have hout := fillBoardFuel_success 82 emptyBoard g k (by decide) (by decide) (by decide) h1
  have h2 : (fillBoardFuel 82 emptyBoard g k).2.1 = b' := by rw [hrun]
  rw [h2] at hout
  obtain ⟨hWF, hcons, hvals, hfull, _⟩ := hout
  intro t ht v hv1 hv9
  refine ⟨?_, ?_, ?_⟩
  · exact group_exists_unique b' hfull hcons hvals (fun d => (t, d))
      (fun d hd => ⟨ht, hd⟩) (fun d _ e _ hh => congrArg Prod.snd hh)
      (fun d _ e _ => Or.inl rfl) v hv1 hv9
  · exact group_exists_unique b' hfull hcons hvals (fun d => (d, t))
      (fun d hd => ⟨hd, ht⟩) (fun d _ e _ hh => congrArg Prod.fst hh)
      (fun d _ e _ => Or.inr (Or.inl rfl)) v hv1 hv9
  · exact group_exists_unique b' hfull hcons hvals
      (fun d => (t / 3 * 3 + d / 3, t % 3 * 3 + d % 3))
      (fun d hd => ⟨show t / 3 * 3 + d / 3 < 9 by omega,
        show t % 3 * 3 + d % 3 < 9 by omega⟩)
      (fun d hd e he hh => by
        have hh1 : t / 3 * 3 + d / 3 = t / 3 * 3 + e / 3 := congrArg Prod.fst hh
        have hh2 : t % 3 * 3 + d % 3 = t % 3 * 3 + e % 3 := congrArg Prod.snd hh
        omega)
      (fun d hd e he => Or.inr (Or.inr
        ⟨show (t / 3 * 3 + d / 3) / 3 = (t / 3 * 3 + e / 3) / 3 by omega,
         show (t % 3 * 3 + d % 3) / 3 = (t % 3 * 3 + e % 3) / 3 by omega⟩)) v hv1 hv9

set_option maxRecDepth 1000000 in
set_option maxHeartbeats 8000000 in
/-- Claim C1 witness: a concrete backtrack-free successful run (steered by
the stream `g0`) producing the cyclic solution `solC`. -/
theorem claim1_witness :
    (∃! c, c < 9 ∧ cellAt solC 0 c = some 5) ∧
    (∃! r, r < 9 ∧ cellAt solC r 0 = some 5) ∧
    (∃! d, d < 9 ∧ cellAt solC (0 / 3 * 3 + d / 3) (0 % 3 * 3 + d % 3) = some 5) :=
  claim1_fill_groups_exactly_once g0 0 solC 648 (by decide) 0 (by decide) 5
    (by decide) (by decide)

/-- Claim C4: after a successful fill, carving with blank count n yields a
grid with exactly min(n, 81) empty cells; every cell is either blanked or
equal to the corresponding cell of the filled grid, and exactly
81 - min(n, 81) cells match it; n = 0 returns the filled grid itself, and
any n ≥ 81 (no internal validation) simply blanks everything, stopping early
without error. -/
theorem claim4_carve_counts (n : ℕ) (g : ℕ → ℕ) (k : ℕ) (b1 : Board) (k1 : ℕ)
    (hrun : fillBoard emptyBoard g k = (true, b1, k1)) :
    emptyCount (generateSudokuPuzzle n g k) = min n 81 ∧
    (∀ r < 9, ∀ c < 9, cellAt (generateSudokuPuzzle n g k) r c = none ∨
      cellAt (generateSudokuPuzzle n g k) r c = cellAt b1 r c) ∧
    (allCells.filter fun p =>
      cellAt (generateSudokuPuzzle n g k) p.1 p.2 == cellAt b1 p.1 p.2).length
      = 81 - min n 81 ∧
    (n = 0 → generateSudokuPuzzle n g k = b1) ∧
    (81 ≤ n → ∀ r < 9, ∀ c < 9, cellAt (generateSudokuPuzzle n g k) r c = none) := by
  have hfb : fillBoard emptyBoard g k = fillBoardFuel 82 emptyBoard g k := rfl
  rw [hfb] at hrun
  have h1 : (fillBoardFuel 82 emptyBoard g k).1 = true := by rw [hrun]
  have hout := fillBoardFuel_success 82 emptyBoard g k (by decide) (by decide) (by decide) h1
  have h2 : (fillBoardFuel 82 emptyBoard g k).2.1 = b1 := by rw [hrun]
  have h3 : (fillBoardFuel 82 emptyBoard g k).2.2 = k1 := by rw [hrun]
  rw [h2] at hout
  obtain ⟨hWF, hcons, hvals, hfull, _⟩ := hout
  have hgen : generateSudokuPuzzle n g k =
      carveGo n (shuffle (List.range 81) g k1).1 0 b1 := by
    rw [generateSudokuPuzzle_eq, cloneBoard_eq, hfb, h2, h3]
  set cells := (shuffle (List.range 81) g k1).1 with hcellsdef
  have hperm : cells.Perm (List.range 81) := shuffle_perm _ g k1
  have hnodup : cells.Nodup := (List.Perm.nodup_iff hperm).mpr (List.nodup_range 81)
  have hlen : cells.length = 81 := by rw [hperm.length_eq, List.length_range]
  have hmemlt : ∀ idx ∈ cells, idx < 81 := fun idx h =>
    List.mem_range.mp (hperm.mem_iff.mp h)
  have hcellprops : ∀ idx ∈ cells, idx < 81 ∧ cellAt b1 (idx / 9) (idx % 9) ≠ none := by
    intro idx h
    have hlt := hmemlt idx h
    exact ⟨hlt, hfull _ (by omega) _ (by omega)⟩
  have hEC : emptyCount (generateSudokuPuzzle n g k) = min n 81 := by
    rw [hgen, carveGo_emptyCount n cells 0 b1 hWF hnodup hcellprops,
      emptyCount_eq_zero_of_full b1 hfull, hlen]
    omega
  have hsub : ∀ r < 9, ∀ c < 9,
      cellAt (generateSudokuPuzzle n g k) r c = cellAt b1 r c ∨
      cellAt (generateSudokuPuzzle n g k) r c = none := by
    rw [hgen]
    exact carveGo_subgrid n cells 0 b1 hWF hmemlt
  refine ⟨hEC, ?_, ?_, ?_, ?_⟩
  · intro r hr c hc
    rcases hsub r hr c hc with h | h
    · exact Or.inr h
    · exact Or.inl h
  · have hfiltercong : (allCells.filter fun p =>
        cellAt (generateSudokuPuzzle n g k) p.1 p.2 == cellAt b1 p.1 p.2) =
        (allCells.filter fun p =>
          !(cellAt (generateSudokuPuzzle n g k) p.1 p.2 == none)) := by
      apply List.filter_congr
      rintro ⟨r, c⟩ hm
      obtain ⟨hr, hc⟩ := (mem_allCells r c).mp hm
      rcases hsub r hr c hc with h | h
      · simp only [h]
        cases hcell : cellAt b1 r c with
        | none => exact absurd hcell (hfull r hr c hc)
        | some w => simp
      · simp only [h]
        cases hcell : cellAt b1 r c with
        | none => exact absurd hcell (hfull r hr c hc)
        | some w => simp
    rw [hfiltercong]
    have hcompl := length_filter_not_plus allCells
      (fun p => cellAt (generateSudokuPuzzle n g k) p.1 p.2 == none)
    have hEC2 : (allCells.filter fun p =>
        cellAt (generateSudokuPuzzle n g k) p.1 p.2 == none).length = min n 81 := hEC
    have hac : allCells.length = 81 := rfl
    omega
  · intro hn0
    rw [hgen, hn0, carveGo_of_le 0 0 b1 (le_refl 0) cells]
  · intro hn81 r hr c hc
    have h81 : (allCells.filter fun p =>
        cellAt (generateSudokuPuzzle n g k) p.1 p.2 == none).length = allCells.length := by
      have hac : allCells.length = 81 := rfl
      have hEC2 : (allCells.filter fun p =>
          cellAt (generateSudokuPuzzle n g k) p.1 p.2 == none).length = min n 81 := hEC
      omega
    have := List.filter_length_eq_length.mp h81 (r, c) ((mem_allCells r c).mpr ⟨hr, hc⟩)
    simpa using this

set_option maxRecDepth 1000000 in
set_option maxHeartbeats 8000000 in
/-- Claim C4 witness: the successful steered run followed by carving 40
cells. -/
theorem claim4_witness :
    emptyCount (generateSudokuPuzzle 40 g0 0) = min 40 81 ∧
    (∀ r < 9, ∀ c < 9, cellAt (generateSudokuPuzzle 40 g0 0) r c = none ∨
      cellAt (generateSudokuPuzzle 40 g0 0) r c = cellAt solC r c) ∧
    (allCells.filter fun p =>
      cellAt (generateSudokuPuzzle 40 g0 0) p.1 p.2 == cellAt solC p.1 p.2).length
      = 81 - min 40 81 ∧
    (40 = 0 → generateSudokuPuzzle 40 g0 0 = solC) ∧
    (81 ≤ 40 → ∀ r < 9, ∀ c < 9, cellAt (generateSudokuPuzzle 40 g0 0) r c = none) :=
  claim4_carve_counts 40 g0 0 solC 648 (by decide)

/-- Claim C10: provided the fill step succeeded, the puzzle returned by
`generateSudokuPuzzle` has an all-false conflict map — blanking cells of a
valid complete grid never introduces a conflict. -/
theorem claim10_generated_puzzle_conflict_free (n : ℕ) (g : ℕ → ℕ) (k : ℕ)
    (hfill : (fillBoard emptyBoard g k).1 = true) :
    ∀ r < 9, ∀ c < 9, errGet (checkErrors (generateSudokuPuzzle n g k)) r c = false := by
  have hfb : fillBoard emptyBoard g k = fillBoardFuel 82 emptyBoard g k := rfl
  rw [hfb] at hfill
  have hout := fillBoardFuel_success 82 emptyBoard g k (by decide) (by decide) (by decide)
    hfill
  obtain ⟨hWF, hcons, hvals, hfull, _⟩ := hout
  have hgen : generateSudokuPuzzle n g k =
      carveGo n (shuffle (List.range 81) g (fillBoardFuel 82 emptyBoard g k).2.2).1 0
        (fillBoardFuel 82 emptyBoard g k).2.1 := by
    rw [generateSudokuPuzzle_eq, cloneBoard_eq, hfb]
  set b1 := (fillBoardFuel 82 emptyBoard g k).2.1 with hb1
  set k1 := (fillBoardFuel 82 emptyBoard g k).2.2 with hk1
  set cells := (shuffle (List.range 81) g k1).1 with hcellsdef
  have hperm : cells.Perm (List.range 81) := shuffle_perm _ g k1
  have hmemlt : ∀ idx ∈ cells, idx < 81 := fun idx h =>
    List.mem_range.mp (hperm.mem_iff.mp h)
  have hsub := carveGo_subgrid n cells 0 b1 hWF hmemlt
  have hccons : Consistent (carveGo n cells 0 b1) := Consistent_of_subgrid b1 _ hsub hcons
  have hcvals : ValsIn (carveGo n cells 0 b1) := ValsIn_of_subgrid b1 _ hsub hvals
  intro r hr c hc
  rw [hgen]
  exact errGet_false_of_consistent _ hccons hcvals r c hr hc

set_option maxRecDepth 1000000 in
set_option maxHeartbeats 8000000 in
/-- Claim C10 witness: the generated 40-blank puzzle of the steered run has
an all-false conflict map. -/
theorem claim10_witness :
    errGet (checkErrors (generateSudokuPuzzle 40 g0 0)) 0 0 = false :=
  claim10_generated_puzzle_conflict_free 40 g0 0 (by decide) 0 (by decide) 0 (by decide)

end Sudoku